import Mathlib

/- Shallow embedding of intibot.py: settings resolution and persistence,
   the intensity function, keyword classification, and the control flow of
   the main monitoring loop.  Python floats are modelled as exact
   rationals, Python strings as Lean strings, and the mutable seen set as
   an explicit list with membership-guarded insertion. -/

namespace Intibot

/-- Effective settings: the five module-level values resolved at startup
(POST_ID, MIN_INTENSITY, MAX_UPVOTES, KEYWORD_LIST,
KEYWORD_INTENSITY_MULTIPLIER, lines 64-68 of intibot.py). -/
structure Settings where
  post_id : String
  min_intensity : ℚ
  max_upvotes : Int
  keywords : List String
  multiplier : ℚ
  deriving DecidableEq

/-- calculate_intensity, lines 94-97: scaled score, base intensity, then
the upper clamp at 1.0 after the boost multiplication. -/
def calculate_intensity (cfg : Settings) (post_score : Int) (multiplier : ℚ) : ℚ :=
  let scaled : ℚ := (post_score : ℚ) / (cfg.max_upvotes : ℚ)
  let base_intensity : ℚ := cfg.min_intensity + (1 - cfg.min_intensity) * scaled
  min (base_intensity * multiplier) 1

/-- Python str.startswith on character lists. -/
def startsWithL : List Char → List Char → Bool
  | [], _ => true
  | _ :: _, [] => false
  | a :: as, b :: bs => a == b && startsWithL as bs

/-- Python substring containment (the string `in` operator) on character
lists: substringL needle hay decides whether needle occurs contiguously
in hay. -/
def substringL (needle : List Char) : List Char → Bool
  | [] => needle.isEmpty
  | b :: bs => startsWithL needle (b :: bs) || substringL needle bs

/-- Python str.lower, character by character. -/
def lowerL (s : List Char) : List Char := s.map Char.toLower

/-- The classification step of the main loop, lines 151-156: lowercase
the body, then select the keyword multiplier when any configured keyword
occurs in it as a substring, and 1.0 otherwise. -/
def selectMultiplier (cfg : Settings) (body : String) : ℚ :=
  if cfg.keywords.any (fun k => substringL k.toList (lowerL body.toList)) then
    cfg.multiplier
  else 1

/-- Line 158, post_score = submission.score or 1: the Python `or`
replaces the score with 1 exactly when the score is falsy, that is,
equal to 0. -/
def pyOrScore (s : Int) : Int := if s = 0 then 1 else s

/-- Command-line overrides (the argparse namespace, lines 24-44); each
optional argument is None when not given. -/
structure Overrides where
  id : Option String
  minimum : Option ℚ
  max_upvotes : Option Int
  reset : Bool
  keywords : Option String
  multiplier : Option ℚ
  deriving DecidableEq

/-- A parsed settings cache file: a JSON object in which each of the five
keys may be absent. -/
structure Cache where
  post_id : Option String
  min_intensity : Option ℚ
  max_upvotes : Option Int
  keywords : Option (List String)
  multiplier : Option ℚ
  deriving DecidableEq

/-- The empty cache, the dict returned when the cache file is absent. -/
def emptyCache : Cache := ⟨none, none, none, none, none⟩

/-- load_cached_settings, lines 47-51.  The file system state is
modelled as Option (Option Cache): none means no cache file exists
(the function returns the empty dict), some none means the file exists
but json.load fails on its content (the exception propagates, there is
no handler), some (some c) means the file parses to c. -/
def load_cached_settings (file : Option (Option Cache)) : Except String Cache :=
  match file with
  | none => .ok emptyCache
  | some none => .error ("json.decoder.JSONDecodeError")
  | some (some c) => .ok c

/-- save_cached_settings as called at lines 70-76: all five effective
fields are written back to the cache in full. -/
def save_cached_settings (s : Settings) : Cache :=
  ⟨some s.post_id, some s.min_intensity, some s.max_upvotes,
   some s.keywords, some s.multiplier⟩

/-- Python str.split with a one-character separator: the runs between
separators, keeping empty runs (so a trailing separator yields a final
empty element). -/
def pySplit (sep : Char) : List Char → List (List Char)
  | [] => [[]]
  | c :: rest =>
      if c = sep then [] :: pySplit sep rest
      else
        match pySplit sep rest with
        | [] => [[c]]
        | h :: t => (c :: h) :: t

/-- args.keywords.split on a comma, line 67. -/
def pySplitComma (s : String) : List String :=
  (pySplit ',' s.toList).map (fun l => String.mk l)

/-- Python truthiness fallback `a or b` for an optional string: the
fallback is taken when the option is None or the empty string. -/
def pyOrStr (o : Option String) (d : String) : String :=
  match o with
  | some s => if s = "" then d else s
  | none => d

/-- The built-in default keyword triggers, line 67. -/
def defaultKeywords : List String := ["knot", "puppy", "gock", "stupid", "choke"]

/-- The module-level settings resolution, lines 64-68: override wins,
else cached value, else default.  post_id and keywords use Python
truthiness, the numeric fields use an explicit None test. -/
def resolveSettings (args : Overrides) (cached : Cache) : Settings :=
  { post_id := pyOrStr args.id (cached.post_id.getD ("gxvdih"))
    min_intensity := args.minimum.getD (cached.min_intensity.getD (1/5))
    max_upvotes := args.max_upvotes.getD (cached.max_upvotes.getD 100)
    keywords :=
      match args.keywords with
      | some s => if s = "" then cached.keywords.getD defaultKeywords else pySplitComma s
      | none => cached.keywords.getD defaultKeywords
    multiplier := args.multiplier.getD (cached.multiplier.getD (3/2)) }

/-- An argparse namespace with no options given. -/
def noOverrides : Overrides := ⟨none, none, none, false, none, none⟩

/-- Lines 58-76: an optional reset removes the cache file, then the
cache is loaded and the settings are resolved.  A json.load failure
propagates as a fatal startup error. -/
def startup (args : Overrides) (file : Option (Option Cache)) : Except String Settings :=
  match load_cached_settings (if args.reset then none else file) with
  | .error e => .error e
  | .ok c => .ok (resolveSettings args c)

/-- A comment snapshot: id, author and body, the fields the loop reads. -/
structure Comment where
  id : String
  author : Option String
  body : String
  deriving DecidableEq

/-- get_new_comments, lines 100-104: the current full comment listing of
the submission filtered against the seen set. -/
def get_new_comments (comments : List Comment) (seen_ids : List String) : List Comment :=
  comments.filter (fun c => decide (c.id ∉ seen_ids))

/-- Set insertion for seen_comment_ids (a Python set of ids). -/
def insertId (i : String) (l : List String) : List String :=
  if i ∈ l then l else i :: l

/-- Observable state of one run of the monitoring loop: the seen set
and, as instrumentation, the ids that entered the for body, the
post_score values passed to calculate_intensity, and the intensities
passed to send_vibration, in order. -/
structure LoopState where
  seen : List String
  processed : List String
  scores : List Int
  intensities : List ℚ
  deriving DecidableEq

/-- The state at the top of main: every observation list is empty. -/
def initState : LoopState := ⟨[], [], [], []⟩

/-- One iteration of the for body, lines 146-162, up to the await of
send_vibration: the id is added to the seen set, the keyword multiplier
is selected, post_score is substituted and the intensity computed. -/
def stepComment (cfg : Settings) (score : Int) (c : Comment) (st : LoopState) : LoopState :=
  let mult := selectMultiplier cfg c.body
  let ps := pyOrScore score
  let inten := calculate_intensity cfg ps mult
  { seen := insertId c.id st.seen
    processed := st.processed ++ [c.id]
    scores := st.scores ++ [ps]
    intensities := st.intensities ++ [inten] }

/-- The for loop over one fetched batch.  failAt gives the index of the
comment at which send_vibration raises, if any; the Bool result records
whether an exception escaped the batch. -/
def processComments (cfg : Settings) (score : Int) :
    Option Nat → List Comment → LoopState → LoopState × Bool
  | _, [], st => (st, false)
  | some 0, c :: _, st => (stepComment cfg score c st, true)
  | some (n + 1), c :: rest, st =>
      processComments cfg score (some n) rest (stepComment cfg score c st)
  | none, c :: rest, st =>
      processComments cfg score none rest (stepComment cfg score c st)

/-- Environment of one iteration of the while loop: either
get_new_comments raises, or it returns the current comment listing
together with the submission score for the cycle and an optional
actuation failure position. -/
inductive CycleEnv where
  | fetchRaise : CycleEnv
  | run : List Comment → Int → Option Nat → CycleEnv
  deriving DecidableEq

/-- The while loop, lines 143-164, over a finite observation window of
cycle environments.  The Bool result records whether an exception
escaped the loop into the except clause at line 166; the try block wraps
the whole while loop, so the first exception terminates it. -/
def runCycles (cfg : Settings) : List CycleEnv → LoopState → LoopState × Bool
  | [], st => (st, false)
  | CycleEnv.fetchRaise :: _, st => (st, true)
  | CycleEnv.run avail score failAt :: rest, st =>
      let res := processComments cfg score failAt (get_new_comments avail st.seen) st
      if res.2 then (res.1, true) else runCycles cfg rest res.1

/-- Outcome of the startup phase before the monitoring try block:
connectRaise means client.connect raises (caught at line 131, return);
scanRaise means connect succeeds but scanning, lines 128-130, raises
(caught by the same except, return, with the session already
established); connectOk means the first try block completes. -/
inductive ConnectPhase where
  | connectRaise : ConnectPhase
  | scanRaise : ConnectPhase
  | connectOk : ConnectPhase
  deriving DecidableEq

/-- Environment of one run of main: the startup phase outcome, whether
the submission setup at lines 135-140 succeeds, the cycle environments,
and whether an interrupt arrives at a suspension point of the loop after
the observed cycles. -/
structure MainEnv where
  connectPhase : ConnectPhase
  setupOk : Bool
  cycles : List CycleEnv
  interrupt : Bool
  deriving DecidableEq

/-- How a run of main ends within the observation window. -/
inductive MainOutcome where
  | connectFailed : MainOutcome
  | setupFailed : MainOutcome
  | loopErrored : MainOutcome
  | interrupted : MainOutcome
  | running : MainOutcome
  deriving DecidableEq

/-- Observable result of a run of main. -/
structure MainResult where
  outcome : MainOutcome
  sessionEstablished : Bool
  disconnectAttempted : Bool
  state : LoopState
  deriving DecidableEq

/-- main, lines 122-170.  A connect failure returns without disconnect;
a scanning failure is caught by the same except clause and also returns,
although the session is already established; a setup failure propagates
out of main with no handler; inside the monitoring try block, both the
except path and an interrupt at a suspension point run the finally
clause, which awaits client.disconnect. -/
def mainRun (cfg : Settings) (env : MainEnv) : MainResult :=
  match env.connectPhase with
  | ConnectPhase.connectRaise => ⟨MainOutcome.connectFailed, false, false, initState⟩
  | ConnectPhase.scanRaise => ⟨MainOutcome.connectFailed, true, false, initState⟩
  | ConnectPhase.connectOk =>
      if env.setupOk then
        let res := runCycles cfg env.cycles initState
        if res.2 then ⟨MainOutcome.loopErrored, true, true, res.1⟩
        else if env.interrupt then ⟨MainOutcome.interrupted, true, true, res.1⟩
        else ⟨MainOutcome.running, true, false, res.1⟩
      else ⟨MainOutcome.setupFailed, true, false, initState⟩

/-- The default effective settings: resolution with no overrides and an
empty cache. -/
def cfgD : Settings := ⟨"gxvdih", 1/5, 100, defaultKeywords, 3/2⟩

/-- The intensity formula as stated in the specification of the
IntensityEngine contract, for comparison with calculate_intensity. -/
def intensity_spec_formula (minI : ℚ) (maxS : Int) (score : Int) (boost : ℚ) : ℚ :=
  min ((minI + (1 - minI) * (score : ℚ) / (maxS : ℚ)) * boost) 1

/-- Settings whose keyword list contains the empty string, as produced
by a trailing comma in the keyword override. -/
def cfgE : Settings := ⟨"gxvdih", 1/5, 100, ["knot", ""], 3/2⟩

/-- An argparse namespace whose keyword override ends in a comma. -/
def argsTrailing : Overrides := ⟨none, none, none, false, some ("knot,"), none⟩

/-- A comment used by concrete runs below. -/
def commentA : Comment := ⟨"idA", none, "a knot comment"⟩

/-- A second comment used by concrete runs below. -/
def commentB : Comment := ⟨"idB", none, "plain comment"⟩

/-- A first observed cycle: commentA is listed and processed. -/
def preC5 : List CycleEnv := [CycleEnv.run [commentA] 4 none]

/-- A later cycle: the listing repeats commentA and adds commentB. -/
def sufC5 : List CycleEnv := [CycleEnv.run [commentA, commentB] 6 none]

/-- A run whose only cycle carries a negative submission score. -/
def envC2 : MainEnv :=
  ⟨ConnectPhase.connectOk, true, [CycleEnv.run [⟨"c1", none, "hello"⟩] (-5) none], false⟩

/-- A run whose first cycle lists two comments and send_vibration raises
on the first of them. -/
def envC3 : MainEnv :=
  ⟨ConnectPhase.connectOk, true,
   [CycleEnv.run [⟨"idA", none, "first"⟩, ⟨"idB", none, "second"⟩] 5 (some 0)], false⟩

/-- A run in which get_new_comments raises in the first cycle. -/
def preW : List CycleEnv := [CycleEnv.fetchRaise]

/-- A further cycle that would process nothing. -/
def restW : List CycleEnv := [CycleEnv.run [] 3 none]

/-- A run in which connect succeeds but scanning raises. -/
def envC4 : MainEnv := ⟨ConnectPhase.scanRaise, true, [], false⟩

/- Characterisation of the substring test. -/

lemma startsWithL_iff (n : List Char) :
    ∀ h : List Char, startsWithL n h = true ↔ ∃ t, h = n ++ t := by
  induction n with
  | nil => intro h; simp [startsWithL]
  | cons a as ih =>
    intro h
    cases h with
    | nil =>
      simp [startsWithL]
    | cons b bs =>
      simp only [startsWithL, Bool.and_eq_true, beq_iff_eq, ih bs]
      constructor
      · rintro ⟨rfl, t, rfl⟩
        exact ⟨t, rfl⟩
      · rintro ⟨t, ht⟩
        injection ht with h1 h2
        exact ⟨h1.symm, t, h2⟩

lemma substringL_iff (n : List Char) :
    ∀ h : List Char, substringL n h = true ↔ ∃ x y, h = x ++ n ++ y := by
  intro h
  induction h with
  | nil =>
    simp only [substringL, List.isEmpty_iff]
    constructor
    · rintro rfl; exact ⟨[], [], rfl⟩
    · rintro ⟨x, y, hxy⟩
      rcases List.append_eq_nil.mp hxy.symm with ⟨h1, h2⟩
      rcases List.append_eq_nil.mp h1 with ⟨_, h3⟩
      exact h3
  | cons b bs ih =>
    simp only [substringL, Bool.or_eq_true, startsWithL_iff, ih]
    constructor
    · rintro (⟨t, ht⟩ | ⟨x, y, hy⟩)
      · exact ⟨[], t, by simpa using ht⟩
      · exact ⟨b :: x, y, by simp [hy]⟩
    · rintro ⟨x, y, hxy⟩
      cases x with
      | nil => exact Or.inl ⟨y, by simpa using hxy⟩
      | cons c xs =>
        injection hxy with h1 h2
        exact Or.inr ⟨xs, y, h2⟩

lemma substringL_nil (l : List Char) : substringL [] l = true := by
  induction l with
  | nil => rfl
  | cons b bs ih => simp [substringL, startsWithL]

/- Invariants of the monitoring loop. -/

lemma insertId_subset (i : String) (l : List String) : l ⊆ insertId i l := by
  intro x hx
  unfold insertId
  split
  · exact hx
  · exact List.mem_cons_of_mem _ hx

lemma mem_insertId (i : String) (l : List String) : i ∈ insertId i l := by
  unfold insertId
  split
  · assumption
  · exact List.mem_cons_self _ _

lemma processComments_nil (cfg : Settings) (sc : Int) (f : Option Nat) (st : LoopState) :
    processComments cfg sc f [] st = (st, false) := by
  cases f with
  | none => rfl
  | some n => cases n <;> rfl

lemma processComments_invariant (cfg : Settings) (sc : Int) (P : LoopState → Prop) :
    ∀ (cs : List Comment) (f : Option Nat) (st : LoopState),
      (∀ c ∈ cs, ∀ s, P s → P (stepComment cfg sc c s)) → P st →
      P (processComments cfg sc f cs st).1 := by
  intro cs
  induction cs with
  | nil =>
    intro f st _ hP
    rw [processComments_nil]
    exact hP
  | cons c rest ih =>
    intro f st hstep hP
    have hstepr : ∀ c2 ∈ rest, ∀ s, P s → P (stepComment cfg sc c2 s) :=
      fun c2 hc2 => hstep c2 (List.mem_cons_of_mem _ hc2)
    have hPc : P (stepComment cfg sc c st) := hstep c (List.mem_cons_self _ _) st hP
    cases f with
    | none => exact ih none (stepComment cfg sc c st) hstepr hPc
    | some n =>
      cases n with
      | zero => exact hPc
      | succ m => exact ih (some m) (stepComment cfg sc c st) hstepr hPc

lemma runCycles_invariant (cfg : Settings) (P : LoopState → Prop)
    (hstep : ∀ (sc : Int) (c : Comment) (s : LoopState), P s → P (stepComment cfg sc c s)) :
    ∀ (cs : List CycleEnv) (st : LoopState), P st → P (runCycles cfg cs st).1 := by
  intro cs
  induction cs with
  | nil => intro st h; exact h
  | cons cyc rest ih =>
    intro st h
    cases cyc with
    | fetchRaise => exact h
    | run avail score failAt =>
      have h1 : P (processComments cfg score failAt (get_new_comments avail st.seen) st).1 :=
        processComments_invariant cfg score P _ failAt st (fun c _ => hstep score c) h
      cases hres : (processComments cfg score failAt (get_new_comments avail st.seen) st).2
      · simpa [runCycles, hres] using ih _ h1
      · simpa [runCycles, hres] using h1

lemma runCycles_append (cfg : Settings) :
    ∀ (a b : List CycleEnv) (st : LoopState),
      runCycles cfg (a ++ b) st =
        if (runCycles cfg a st).2 then runCycles cfg a st
        else runCycles cfg b (runCycles cfg a st).1 := by
  intro a
  induction a with
  | nil => intro b st; simp [runCycles]
  | cons cyc rest ih =>
    intro b st
    cases cyc with
    | fetchRaise => simp [runCycles]
    | run avail score failAt =>
      simp only [List.cons_append, runCycles]
      cases hres : (processComments cfg score failAt (get_new_comments avail st.seen) st).2
      · simp only [hres, Bool.false_eq_true, if_false]
        exact ih b _
      · simp [hres]

lemma stepComment_processed (cfg : Settings) (sc : Int) (c : Comment) (st : LoopState) :
    (stepComment cfg sc c st).processed = st.processed ++ [c.id] := rfl

lemma stepComment_seen (cfg : Settings) (sc : Int) (c : Comment) (st : LoopState) :
    (stepComment cfg sc c st).seen = insertId c.id st.seen := rfl

lemma processComments_processed_growth (cfg : Settings) (sc : Int) (S : List String) :
    ∀ (cs : List Comment) (f : Option Nat) (st : LoopState),
      (∀ c ∈ cs, c.id ∉ S) →
      ∃ l, (processComments cfg sc f cs st).1.processed = st.processed ++ l ∧
           ∀ x ∈ l, x ∉ S := by
  intro cs
  induction cs with
  | nil =>
    intro f st _
    rw [processComments_nil]
    exact ⟨[], by simp, by simp⟩
  | cons c rest ih =>
    intro f st hS
    have hSr : ∀ c2 ∈ rest, c2.id ∉ S := fun c2 h2 => hS c2 (List.mem_cons_of_mem _ h2)
    have hcS : c.id ∉ S := hS c (List.mem_cons_self _ _)
    have hmem : ∀ l2 : List String,
        (∀ x ∈ l2, x ∉ S) → ∀ x ∈ c.id :: l2, x ∉ S := by
      intro l2 hl2 x hx
      rcases List.mem_cons.mp hx with rfl | hx2
      · exact hcS
      · exact hl2 x hx2
    cases f with
    | none =>
      obtain ⟨l2, hl2, hl2S⟩ := ih none (stepComment cfg sc c st) hSr
      refine ⟨c.id :: l2, ?_, hmem l2 hl2S⟩
      show (processComments cfg sc none rest (stepComment cfg sc c st)).1.processed = _
      rw [hl2, stepComment_processed]
      simp
    | some n =>
      cases n with
      | zero =>
        refine ⟨[c.id], ?_, hmem [] (by simp)⟩
        show (stepComment cfg sc c st).processed = _
        rw [stepComment_processed]
      | succ m =>
        obtain ⟨l2, hl2, hl2S⟩ := ih (some m) (stepComment cfg sc c st) hSr
        refine ⟨c.id :: l2, ?_, hmem l2 hl2S⟩
        show (processComments cfg sc (some m) rest (stepComment cfg sc c st)).1.processed = _
        rw [hl2, stepComment_processed]
        simp

lemma seen_mono_step (cfg : Settings) (S : List String) :
    ∀ (sc : Int) (c : Comment) (s : LoopState),
      S ⊆ s.seen → S ⊆ (stepComment cfg sc c s).seen :=
  fun _ c s hs => hs.trans (by rw [stepComment_seen]; exact insertId_subset _ _)

lemma runCycles_processed_growth (cfg : Settings) (S : List String) :
    ∀ (cs : List CycleEnv) (st : LoopState), S ⊆ st.seen →
      ∃ l, (runCycles cfg cs st).1.processed = st.processed ++ l ∧ ∀ x ∈ l, x ∉ S := by
  intro cs
  induction cs with
  | nil => intro st _; exact ⟨[], by simp [runCycles], by simp⟩
  | cons cyc rest ih =>
    intro st hsub
    cases cyc with
    | fetchRaise => exact ⟨[], by simp [runCycles], by simp⟩
    | run avail score failAt =>
      have hnotS : ∀ c ∈ get_new_comments avail st.seen, c.id ∉ S := by
        intro c hc hcS
        have hfil := List.of_mem_filter hc
        exact (of_decide_eq_true hfil) (hsub hcS)
      obtain ⟨l1, hl1, hl1S⟩ :=
        processComments_processed_growth cfg score S (get_new_comments avail st.seen)
          failAt st hnotS
      have hseen1 :
          S ⊆ (processComments cfg score failAt (get_new_comments avail st.seen) st).1.seen :=
        processComments_invariant cfg score (fun s => S ⊆ s.seen) _ failAt st
          (fun c _ => seen_mono_step cfg S score c) hsub
      cases hres : (processComments cfg score failAt (get_new_comments avail st.seen) st).2
      · obtain ⟨l2, hl2, hl2S⟩ := ih _ hseen1
        refine ⟨l1 ++ l2, ?_, ?_⟩
        · simp only [runCycles, hres, Bool.false_eq_true, if_false]
          rw [hl2, hl1, List.append_assoc]
        · intro x hx
          rcases List.mem_append.mp hx with hx1 | hx2
          · exact hl1S x hx1
          · exact hl2S x hx2
      · refine ⟨l1, ?_, hl1S⟩
        simp only [runCycles, hres, if_true]
        exact hl1

/-- C1: calculate_intensity computes exactly the specified formula
min((minIntensity + (1 - minIntensity) * score / maxScoreForFullIntensity)
* boost, 1.0); in particular, with maxScoreForFullIntensity = 100 and
minIntensity = 0.2, intensity(50, 1.0) = 0.6 and intensity(50, 1.5) = 0.9. -/
theorem calculate_intensity_spec :
    (∀ (cfg : Settings) (score : Int) (boost : ℚ),
       calculate_intensity cfg score boost =
         intensity_spec_formula cfg.min_intensity cfg.max_upvotes score boost) ∧
    calculate_intensity cfgD 50 1 = 3/5 ∧ calculate_intensity cfgD 50 (3/2) = 9/10 := by
  refine ⟨?_, ?_, ?_⟩
  · intro cfg score boost
    simp [calculate_intensity, intensity_spec_formula, mul_div_assoc]
  · norm_num [calculate_intensity, cfgD]
  · norm_num [calculate_intensity, cfgD]

/-- C2 counterexample: with an aggregate score of -5 fetched during the
Actuating step, the intensity function is invoked with post_score = -5,
not with 1: `score or 1` only substitutes a zero score. -/
theorem negative_score_not_substituted_cex :
    (mainRun cfgD envC2).state.scores = [-5] ∧ ¬ (1 ≤ (-5 : Int)) := by
  exact ⟨by decide, by decide⟩

/-- C2 amended: in the Actuating step the fetched score is substituted
with 1 exactly when it is zero (Python falsiness of `score or 1`); a
negative score is passed to the intensity function unchanged, so the
intensity function is not always called with a score of at least 1. -/
theorem score_substitution_zero_only :
    (∀ (cfg : Settings) (c : Comment) (sc : Int),
       (mainRun cfg ⟨ConnectPhase.connectOk, true, [CycleEnv.run [c] sc none], false⟩).state.scores
         = [if sc = 0 then 1 else sc]) ∧
    pyOrScore 0 = 1 ∧ pyOrScore (-5) = -5 := by
  refine ⟨?_, rfl, rfl⟩
  intro cfg c sc
  simp [mainRun, runCycles, get_new_comments, processComments, stepComment, initState, pyOrScore]

/-- C3 counterexample: an error raised while actuating for the first
comment of a batch of two aborts the Monitoring state: the run ends as
loopErrored and the second fetched comment is never classified or
actuated, instead of the loop proceeding to the next comment. -/
theorem loop_error_skips_rest_cex :
    (mainRun cfgD envC3).outcome = MainOutcome.loopErrored ∧
    (mainRun cfgD envC3).state.processed = ["idA"] := by
  exact ⟨by decide, by decide⟩

/-- C3 amended: an error raised while fetching or actuating is caught by
the single handler wrapping the whole monitoring loop: it is logged once
as a runtime error, the remaining comments and all later cycles are not
processed, and the program proceeds to shutdown with the disconnect
attempted; the loop does not continue with the next comment or cycle. -/
theorem loop_error_aborts_monitoring (cfg : Settings) (pre rest : List CycleEnv) (intr : Bool)
    (h : (runCycles cfg pre initState).2 = true) :
    runCycles cfg (pre ++ rest) initState = runCycles cfg pre initState ∧
    (mainRun cfg ⟨ConnectPhase.connectOk, true, pre ++ rest, intr⟩).outcome =
      MainOutcome.loopErrored ∧
    (mainRun cfg ⟨ConnectPhase.connectOk, true, pre ++ rest, intr⟩).disconnectAttempted
      = true := by
  have happ := runCycles_append cfg pre rest initState
  rw [h] at happ
  simp only [if_pos] at happ
  refine ⟨happ, ?_, ?_⟩ <;> simp [mainRun, happ, h]

/-- C3 witness: a fetch error in the first cycle makes a later cycle
unreachable and the run end as loopErrored with disconnect attempted. -/
theorem loop_error_aborts_monitoring_w :
    runCycles cfgD (preW ++ restW) initState = runCycles cfgD preW initState ∧
    (mainRun cfgD ⟨ConnectPhase.connectOk, true, preW ++ restW, false⟩).outcome =
      MainOutcome.loopErrored ∧
    (mainRun cfgD ⟨ConnectPhase.connectOk, true, preW ++ restW, false⟩).disconnectAttempted
      = true :=
  loop_error_aborts_monitoring cfgD preW restW false (by decide)

/-- C4 counterexample: when connect succeeds but scanning raises, the
session is established, the run terminates (outcome is not running), and
no disconnect is attempted, because the return at line 133 is outside
the try/finally that owns the disconnect. -/
theorem scan_failure_no_disconnect_cex :
    (mainRun cfgD envC4).sessionEstablished = true ∧
    (mainRun cfgD envC4).outcome ≠ MainOutcome.running ∧
    (mainRun cfgD envC4).disconnectAttempted = false := by
  exact ⟨by decide, by decide, by decide⟩

/-- C4 amended: disconnect is attempted exactly on the exit paths that
leave the monitoring try block, namely a runtime error inside the
monitoring loop or an interrupt during it; a failure after the session
is established but before the loop is entered (scanning failure,
submission setup failure) terminates without attempting disconnect. -/
theorem disconnect_iff_loop_exit (cfg : Settings) (env : MainEnv) :
    (mainRun cfg env).disconnectAttempted = true ↔
      ((mainRun cfg env).outcome = MainOutcome.loopErrored ∨
       (mainRun cfg env).outcome = MainOutcome.interrupted) := by
  obtain ⟨cp, su, cys, intr⟩ := env
  cases cp <;> cases su <;>
    cases hres : (runCycles cfg cys initState).2 <;> cases intr <;>
      simp [mainRun, hres]

/-- C5: over any run of the monitoring loop, the seen set only grows
from any prefix of cycles to any extension; every id that entered the
for body is in the seen set from then on; and every id processed in the
later cycles of an extension was not in the seen set at the end of the
prefix, so an id processed once is never re-classified or re-actuated in
a later cycle. -/
theorem seen_set_dedup (cfg : Settings) (pre suffix : List CycleEnv) :
    ((runCycles cfg pre initState).1.seen ⊆ (runCycles cfg (pre ++ suffix) initState).1.seen) ∧
    (∀ x ∈ (runCycles cfg pre initState).1.processed,
       x ∈ (runCycles cfg pre initState).1.seen) ∧
    (∃ l, (runCycles cfg (pre ++ suffix) initState).1.processed =
            (runCycles cfg pre initState).1.processed ++ l ∧
          ∀ x ∈ l, x ∉ (runCycles cfg pre initState).1.seen) := by
  have happ := runCycles_append cfg pre suffix initState
  refine ⟨?_, ?_, ?_⟩
  · rw [happ]
    cases hres : (runCycles cfg pre initState).2
    · simp only [Bool.false_eq_true, if_false]
      exact runCycles_invariant cfg (fun s => (runCycles cfg pre initState).1.seen ⊆ s.seen)
        (seen_mono_step cfg _) suffix _ (fun x hx => hx)
    · simp only [if_true]
      exact fun x hx => hx
  · exact runCycles_invariant cfg (fun s => ∀ x ∈ s.processed, x ∈ s.seen)
      (by
        intro sc c s hs x hx
        rw [stepComment_processed] at hx
        rw [stepComment_seen]
        rcases List.mem_append.mp hx with hx1 | hx2
        · exact insertId_subset _ _ (hs x hx1)
        · rw [List.mem_singleton.mp hx2]
          exact mem_insertId _ _)
      pre initState (by simp [initState])
  · rw [happ]
    cases hres : (runCycles cfg pre initState).2
    · simp only [Bool.false_eq_true, if_false]
      exact runCycles_processed_growth cfg _ suffix _ (fun x hx => hx)
    · simp only [if_true]
      exact ⟨[], by simp, by simp⟩

/-- C5 witness: a run in which commentA is processed in the first cycle,
re-listed in a later cycle together with commentB, and only ids outside
the earlier seen set are newly processed. -/
theorem seen_set_dedup_w :
    ((runCycles cfgD preC5 initState).1.seen ⊆
       (runCycles cfgD (preC5 ++ sufC5) initState).1.seen) ∧
    ("idA" : String) ∈ (runCycles cfgD preC5 initState).1.seen ∧
    (∃ l, (runCycles cfgD (preC5 ++ sufC5) initState).1.processed =
            (runCycles cfgD preC5 initState).1.processed ++ l ∧
          ∀ x ∈ l, x ∉ (runCycles cfgD preC5 initState).1.seen) := by
  obtain ⟨h1, h2, h3⟩ := seen_set_dedup cfgD preC5 sufC5
  exact ⟨h1, h2 ("idA") (by decide), h3⟩

/-- C6: the save step writes all five resolved fields back to the cache,
so a later startup with no overrides and no reset reproduces the
previous effective configuration exactly; in particular a run with
override minimum = 0.3 followed by a run with no overrides yields
minIntensity = 0.3 again. -/
theorem settings_round_trip :
    (∀ (args : Overrides) (cached : Cache),
       startup noOverrides (some (some (save_cached_settings (resolveSettings args cached)))) =
         Except.ok (resolveSettings args cached)) ∧
    (∀ cached : Cache,
       (resolveSettings noOverrides (save_cached_settings
          (resolveSettings ⟨none, some (3/10), none, false, none, none⟩ cached))).min_intensity
         = 3/10) := by
  constructor
  · intro args cached
    rfl
  · intro cached
    rfl

/-- C7: with a lowercase trigger such as knot configured, any comment
whose body contains that word in any letter case selects the keyword
multiplier, because the body is lowercased before the substring test;
and a comment in whose lowercased body no trigger occurs as a substring
selects boost 1.0. -/
theorem keyword_match_case_insensitive (cfg : Settings) (body : String) :
    (∀ x v y : List Char, body.toList = x ++ v ++ y → lowerL v = "knot".toList →
       ("knot" : String) ∈ cfg.keywords → selectMultiplier cfg body = cfg.multiplier) ∧
    ((∀ k ∈ cfg.keywords, ¬ ∃ x y : List Char, lowerL body.toList = x ++ k.toList ++ y) →
       selectMultiplier cfg body = 1) := by
  constructor
  · intro x v y hdecomp hlow hmem
    have hsub : substringL (String.toList ("knot")) (lowerL body.toList) = true := by
      apply (substringL_iff _ _).mpr
      refine ⟨lowerL x, lowerL y, ?_⟩
      rw [hdecomp, ← hlow]
      simp [lowerL]
    unfold selectMultiplier
    rw [if_pos]
    exact List.any_eq_true.mpr ⟨"knot", hmem, hsub⟩
  · intro hnone
    unfold selectMultiplier
    rw [if_neg]
    intro hany
    obtain ⟨k, hk, hsub⟩ := List.any_eq_true.mp hany
    exact hnone k hk ((substringL_iff _ _).mp hsub)

/-- C7 witness: a body containing KNOT in capitals selects the
multiplier under the default triggers, and a body containing no trigger
selects 1. -/
theorem keyword_match_case_insensitive_w :
    selectMultiplier cfgD ("big KNOT energy") = cfgD.multiplier ∧
    selectMultiplier cfgD ("nothing here") = 1 := by
  constructor
  · exact (keyword_match_case_insensitive cfgD ("big KNOT energy")).1
      (String.toList ("big ")) (String.toList ("KNOT")) (String.toList (" energy"))
      (by decide) (by decide) (by decide)
  · apply (keyword_match_case_insensitive cfgD ("nothing here")).2
    intro k hk hex
    have hsub : substringL k.toList (lowerL (String.toList ("nothing here"))) = true :=
      (substringL_iff _ _).mpr hex
    have hk5 : k ∈ ["knot", "puppy", "gock", "stupid", "choke"] := hk
    fin_cases hk5 <;> revert hsub <;> decide

/-- C8: a missing cache file is treated as an empty cache and resolution
falls through to the defaults for every field; the file existing with
malformed content, however, raises a decode error that propagates,
rather than being treated as an empty cache. -/
theorem cache_load_behavior :
    load_cached_settings none = Except.ok emptyCache ∧
    load_cached_settings (some none) = Except.error ("json.decoder.JSONDecodeError") ∧
    (∀ c : Cache, load_cached_settings (some (some c)) = Except.ok c) ∧
    resolveSettings noOverrides emptyCache = cfgD := by
  exact ⟨rfl, rfl, fun c => rfl, rfl⟩

/-- C8 counterexample: on a cache file whose content does not parse,
load_cached_settings propagates a decode error instead of returning the
empty configuration. -/
theorem malformed_cache_raises_cex :
    load_cached_settings (some none) = Except.error ("json.decoder.JSONDecodeError") := rfl

/-- C9: under the settings invariant 0 <= minIntensity <= 1 and
maxScoreForFullIntensity > 0, with boost 1.0 the intensity is
monotonically non-decreasing in the score over 1 <= s <=
maxScoreForFullIntensity and equals exactly 1 at the maximum score. -/
theorem intensity_monotone_and_full (cfg : Settings)
    (_h0 : 0 ≤ cfg.min_intensity) (h1 : cfg.min_intensity ≤ 1) (hM : 0 < cfg.max_upvotes) :
    (∀ s1 s2 : Int, 1 ≤ s1 → s1 ≤ s2 → s2 ≤ cfg.max_upvotes →
       calculate_intensity cfg s1 1 ≤ calculate_intensity cfg s2 1) ∧
    calculate_intensity cfg cfg.max_upvotes 1 = 1 := by
  have hMQ : (0 : ℚ) < (cfg.max_upvotes : ℚ) := by exact_mod_cast hM
  constructor
  · intro s1 s2 hs1 h12 hs2
    simp only [calculate_intensity, mul_one]
    apply min_le_min _ le_rfl
    have hs : (s1 : ℚ) ≤ (s2 : ℚ) := by exact_mod_cast h12
    have hd : (s1 : ℚ) / (cfg.max_upvotes : ℚ) ≤ (s2 : ℚ) / (cfg.max_upvotes : ℚ) :=
      (div_le_div_iff_of_pos_right hMQ).mpr hs
    have hm : (0 : ℚ) ≤ 1 - cfg.min_intensity := by linarith
    nlinarith [mul_le_mul_of_nonneg_left hd hm]
  · simp only [calculate_intensity]
    rw [div_self (ne_of_gt hMQ)]
    have hb : cfg.min_intensity + (1 - cfg.min_intensity) * 1 = 1 := by ring
    rw [hb, one_mul]
    exact min_self 1

/-- C9 witness: at the default settings the intensity is monotone
between scores 3 and 7 and reaches 1 at score 100. -/
theorem intensity_monotone_and_full_w :
    calculate_intensity cfgD 3 1 ≤ calculate_intensity cfgD 7 1 ∧
    calculate_intensity cfgD 100 1 = 1 := by
  have h := intensity_monotone_and_full cfgD (by norm_num [cfgD]) (by norm_num [cfgD])
    (by norm_num [cfgD])
  exact ⟨h.1 3 7 (by norm_num) (by norm_num) (by norm_num [cfgD]), h.2⟩

/-- C10: if the effective keyword list contains the empty string, the
keyword multiplier is selected for every comment body, because the empty
string occurs in every lowercased body; and this state is reachable,
since the keyword override knot-comma resolves, by splitting on commas
without filtering, to a list whose second element is the empty string. -/
theorem empty_keyword_matches_all (cfg : Settings) (cached : Cache)
    (h : ("" : String) ∈ cfg.keywords) :
    (∀ body : String, selectMultiplier cfg body = cfg.multiplier) ∧
    (resolveSettings argsTrailing cached).keywords = ["knot", ""] := by
  constructor
  · intro body
    unfold selectMultiplier
    rw [if_pos]
    exact List.any_eq_true.mpr ⟨"", h, substringL_nil _⟩
  · simp [resolveSettings, argsTrailing]
    decide

/-- C10 witness: with keyword list knot and the empty string, an
unrelated body still selects the multiplier, and the trailing-comma
override resolves to that list. -/
theorem empty_keyword_matches_all_w :
    selectMultiplier cfgE ("totally unrelated text") = cfgE.multiplier ∧
    (resolveSettings argsTrailing emptyCache).keywords = ["knot", ""] := by
  have h := empty_keyword_matches_all cfgE emptyCache (by decide)
  exact ⟨h.1 ("totally unrelated text"), h.2⟩

end Intibot
